import Mathlib

/-!
# Verification of the MA aligner core

A shallow embedding, in Lean 4, of the parts of the MA long-read aligner
that its specification makes claims about:

* the packed reference store `Pack` (pack.h: 2-bit packed forward strand,
  contig and hole descriptors, virtual reverse-strand addressing,
  subsection extraction, on-disk `.pac`/`.ann`/`.amb` serialisation);
* the seed container (`Seed`) and the `SeedLumping` module
  (harmonization.h);
* the rectangle construction, reseeding guard and SV-jump emission of
  `SvJumpsFromSeeds` (svJumpsFromSeeds.cpp / svJumpsFromSeeds.h);
* the shadow construction of the old `LineSweep` module (linesweep.cpp);
* the seed-overlap handling in `NeedlemanWunsch::execute`
  (needlemanWunsch.cpp) and the forward/reverse choice of the DP fallback
  in `SvJumpsFromSeeds::computeSeeds`.

Machine integers (`uint64_t` / `int64_t` / `nucSeqIndex`) are modelled as
`Nat` / `Int`; every theorem stays in the regime where the C++ arithmetic
does not overflow, and places where C++ would wrap or truncate are noted
next to the definition concerned.  Fallible operations (C++ `throw`)
return `Except String`.  Components that the specification declares
external (the FM-index seeder, the hash-map k-mer seeder, the kswcpp DP
kernel, the palindrome filter) enter as explicit function parameters.
-/

/-! ## Seed (ma/container/seed.h)

`Seed` derives from `geom::Interval<nucSeqIndex>` (fields `iStart`,
`iSize`, the interval on the query) and adds the reference position and
the strand flag.  The statistics fields `uiAmbiguity`, `uiSoCNt` and
`uiDelta` play no role in any claim and are omitted. -/

structure Seed where
  iStart : Nat
  iSize : Nat
  uiPosOnReference : Nat
  bOnForwStrand : Bool
deriving DecidableEq, Repr

/-- `Interval::start()`: the beginning of the seed on the query. -/
def Seed.start (s : Seed) : Nat := s.iStart

/-- `Interval::size()`. -/
def Seed.size (s : Seed) : Nat := s.iSize

/-- `Interval::end()`: `iStart + iSize` (named `qEnd` because `end` is a
Lean keyword). -/
def Seed.qEnd (s : Seed) : Nat := s.iStart + s.iSize

/-- `Seed::start_ref()`: the beginning of the seed on the reference. -/
def Seed.start_ref (s : Seed) : Nat := s.uiPosOnReference

/-- `Seed::end_ref()`: `uiPosOnReference + size()`. -/
def Seed.end_ref (s : Seed) : Nat := s.uiPosOnReference + s.iSize

/-! ## SeedLumping (module/harmonization.h, lines 208-243)

`SeedLumping::execute` starts from `pIn->front()` (an out-of-bounds
access when `pIn` is empty, hence the non-emptiness hypothesis on
`seedLumpingExecute`) and walks the rest of the collection, merging a
seed into `pRet->back()` whenever it lies on the same diagonal and
overlaps or touches it on the query. -/

/-- The diagonal used by `SeedLumping`:
`int64_t iDelta = xIt->start_ref( ) - (int64_t)xIt->start( )`.
In C++ this is `uint64_t` arithmetic whose result is converted to
`int64_t`; for values below `2^63` that equals the integer difference
modelled here. -/
def lumpDelta (s : Seed) : Int := (s.start_ref : Int) - (s.start : Int)

/-- The `while( xIt != pIn->end( ) )` loop of `SeedLumping::execute`.
`back` is `pRet->back()` (the only element of `pRet` the loop ever
touches), `iDelta` the loop variable of the same name; the returned list
is `pRet` with `back` at its head position. -/
def seedLumpGo (back : Seed) (iDelta : Int) : List Seed → List Seed
  | [] => [back]
  | s :: rest =>
    let iNewDelta := lumpDelta s
    if iDelta = iNewDelta ∧ s.start ≤ back.qEnd then
      seedLumpGo
        (if back.qEnd < s.qEnd then { back with iSize := back.iSize + (s.qEnd - back.qEnd) }
         else back)
        iDelta rest
    else
      back :: seedLumpGo s iNewDelta rest

/-- `SeedLumping::execute`.  The C++ reads `pIn->front()` before any size
check, so a non-empty input is a structural precondition here. -/
def seedLumpingExecute (pIn : List Seed) (h : pIn ≠ []) : List Seed :=
  match pIn, h with
  | s :: rest, _ => seedLumpGo s (lumpDelta s) rest

/-- One unfolding of the `SeedLumping` loop. -/
theorem seedLumpGo_cons (back : Seed) (iDelta : Int) (s : Seed) (rest : List Seed) :
    seedLumpGo back iDelta (s :: rest) =
      if iDelta = lumpDelta s ∧ s.start ≤ back.qEnd then
        seedLumpGo
          (if back.qEnd < s.qEnd then { back with iSize := back.iSize + (s.qEnd - back.qEnd) }
           else back)
          iDelta rest
      else
        back :: seedLumpGo s (lumpDelta s) rest := rfl

/-- Equality of seeds in the sense used by the lumper's specification:
same query start, same reference start, and same size. -/
def seedEqQRS (a b : Seed) : Prop :=
  a.start = b.start ∧ a.start_ref = b.start_ref ∧ a.size = b.size

instance : DecidablePred fun p : Seed × Seed => seedEqQRS p.1 p.2 := fun _ =>
  by unfold seedEqQRS; infer_instance

/-- The head of the lumped list is the initial `back` seed, possibly
grown in size: query start and reference start are preserved. -/
theorem seedLumpGo_head (rest : List Seed) :
    ∀ (back : Seed) (iDelta : Int), ∃ sz,
      (seedLumpGo back iDelta rest).head? =
        some { back with iSize := sz } ∧ back.iSize ≤ sz := by
  induction rest with
  | nil =>
    intro back iDelta
    exact ⟨back.iSize, rfl, le_refl _⟩
  | cons s rest ih =>
    intro back iDelta
    unfold seedLumpGo
    by_cases hc : iDelta = lumpDelta s ∧ s.start ≤ back.qEnd
    · rw [if_pos hc]
      by_cases hg : back.qEnd < s.qEnd
      · rw [if_pos hg]
        obtain ⟨sz, h1, h2⟩ := ih { back with iSize := back.iSize + (s.qEnd - back.qEnd) } iDelta
        exact ⟨sz, h1, le_trans (Nat.le_add_right _ _) h2⟩
      · rw [if_neg hg]
        exact ih back iDelta
    · rw [if_neg hc]
      exact ⟨back.iSize, rfl, le_refl _⟩

/-- Two consecutive seeds of the lumped output are never on the same
diagonal with the second starting at or before the first's start. -/
theorem seedLumpGo_chain (rest : List Seed) :
    ∀ (back : Seed),
      List.Chain' (fun a b => lumpDelta a ≠ lumpDelta b ∨ a.start < b.start)
        (seedLumpGo back (lumpDelta back) rest) := by
  induction rest with
  | nil => intro back; simp [seedLumpGo]
  | cons s rest ih =>
    intro back
    unfold seedLumpGo
    by_cases hc : lumpDelta back = lumpDelta s ∧ s.start ≤ back.qEnd
    · rw [if_pos hc]
      by_cases hg : back.qEnd < s.qEnd
      · rw [if_pos hg]
        have : lumpDelta { back with iSize := back.iSize + (s.qEnd - back.qEnd) } =
            lumpDelta back := by
          simp [lumpDelta, Seed.start_ref, Seed.start]
        have h := ih { back with iSize := back.iSize + (s.qEnd - back.qEnd) }
        rwa [this] at h
      · rw [if_neg hg]; exact ih back
    · rw [if_neg hc]
      rw [List.chain'_cons']
      constructor
      · intro b hb
        obtain ⟨sz, h1, _⟩ := seedLumpGo_head rest s (lumpDelta s)
        rw [h1] at hb
        obtain rfl : b = { s with iSize := sz } := by
          have := hb.symm; simpa using this
        rcases not_and_or.mp hc with h | h
        · left
          simpa [lumpDelta, Seed.start_ref, Seed.start] using h
        · right
          have hstart : back.start ≤ back.qEnd := Nat.le_add_right _ _
          have : back.qEnd < s.start := Nat.lt_of_not_le h
          simpa [Seed.start] using Nat.lt_of_le_of_lt hstart this
      · exact ih s

/-- Merging two seeds that agree on query start, reference start and size:
the second of the two is absorbed without any effect. -/
theorem seedLumpGo_dup (back : Seed) (iDelta : Int) (a b : Seed) (rest : List Seed)
    (hab : seedEqQRS a b) :
    seedLumpGo back iDelta (a :: b :: rest) = seedLumpGo back iDelta (a :: rest) := by
  obtain ⟨h1, h2, h3⟩ := hab
  have hdelta : lumpDelta a = lumpDelta b := by
    simp [lumpDelta, h1, h2]
  have hqEnd : a.qEnd = b.qEnd := by
    simp only [Seed.qEnd]
    simp only [Seed.start] at h1
    simp only [Seed.size] at h3
    omega
  by_cases hc : iDelta = lumpDelta a ∧ a.start ≤ back.qEnd
  · by_cases hg : back.qEnd < a.qEnd
    · have hc2 : iDelta = lumpDelta b ∧
          b.start ≤ ({ back with iSize := back.iSize + (a.qEnd - back.qEnd) } : Seed).qEnd := by
        refine ⟨by rw [hc.1, hdelta], ?_⟩
        simp only [Seed.qEnd, Seed.start] at *
        omega
      have hg2 : ¬ ({ back with iSize := back.iSize + (a.qEnd - back.qEnd) } : Seed).qEnd <
          b.qEnd := by
        simp only [Seed.qEnd] at *
        omega
      simp only [seedLumpGo_cons, if_pos hc, if_pos hg, if_pos hc2, if_neg hg2]
    · have hc2 : iDelta = lumpDelta b ∧ b.start ≤ back.qEnd := by
        refine ⟨by rw [hc.1, hdelta], ?_⟩
        simp only [Seed.qEnd, Seed.start] at *
        omega
      have hg2 : ¬ back.qEnd < b.qEnd := by
        simp only [Seed.qEnd, Seed.start] at *
        omega
      simp only [seedLumpGo_cons, if_pos hc, if_neg hg, if_pos hc2, if_neg hg2]
  · have hc2 : lumpDelta a = lumpDelta b ∧ b.start ≤ a.qEnd := by
      refine ⟨hdelta, ?_⟩
      simp only [Seed.qEnd, Seed.start] at *
      omega
    have hg2 : ¬ a.qEnd < b.qEnd := by omega
    simp only [seedLumpGo_cons, if_neg hc, if_pos hc2, if_neg hg2]

/-- C10, counterexample: the claim asserts that the first output seed
equals the first input seed.  On the input
`[(q=0, size=2, r=0), (q=1, size=2, r=1)]` (same diagonal, query
overlap) the lumper grows the first seed to size 3, so the first output
seed differs from the first input seed. -/
theorem C10_seedLumping_first_counterexample :
    seedLumpingExecute
        [⟨0, 2, 0, true⟩, ⟨1, 2, 1, true⟩] (by simp) =
      [⟨0, 3, 0, true⟩] ∧
    (⟨0, 3, 0, true⟩ : Seed) ≠ ⟨0, 2, 0, true⟩ := by
  constructor
  · rfl
  · decide

/-- C10 (amended): under the non-emptiness precondition (the C++ reads
`pIn->front()` unconditionally), `SeedLumping::execute` returns a
non-empty collection whose first seed is the first input seed with its
query start and reference start preserved (its size may have grown by
merging); seeds that agree on query start, reference start and size are
merged into one (dropping the duplicate changes nothing); and the output
never contains two adjacent seeds that agree on query start, reference
start and size. -/
theorem C10_seedLumping_amended (s : Seed) (rest : List Seed)
    (h : (s :: rest : List Seed) ≠ []) :
    seedLumpingExecute (s :: rest) h ≠ [] ∧
    (∃ sz, (seedLumpingExecute (s :: rest) h).head? = some { s with iSize := sz } ∧
      s.iSize ≤ sz) ∧
    List.Chain' (fun a b => ¬ seedEqQRS a b) (seedLumpingExecute (s :: rest) h) ∧
    (∀ (a b : Seed) (t u : List Seed), seedEqQRS a b →
      rest = t ++ a :: b :: u →
        seedLumpingExecute (s :: rest) h =
          seedLumpingExecute (s :: t ++ a :: u) (by simp)) := by
  refine ⟨?_, ?_, ?_, ?_⟩
  · obtain ⟨sz, h1, _⟩ := seedLumpGo_head rest s (lumpDelta s)
    intro hcon
    have hgo : seedLumpGo s (lumpDelta s) rest = [] := hcon
    rw [hgo] at h1
    simp at h1
  · exact seedLumpGo_head rest s (lumpDelta s)
  · refine List.Chain'.imp ?_ (seedLumpGo_chain rest s)
    intro a b hr he
    obtain ⟨e1, e2, _⟩ := he
    rcases hr with hd | hs
    · exact hd (by simp [lumpDelta, e1, e2])
    · simp only [Seed.start] at *
      omega
  · intro a b t u hab hrest
    subst hrest
    show seedLumpGo s (lumpDelta s) (t ++ a :: b :: u) =
      seedLumpGo s (lumpDelta s) (t ++ a :: u)
    induction t generalizing s with
    | nil => exact seedLumpGo_dup s (lumpDelta s) a b u hab
    | cons x t ih =>
      simp only [List.cons_append]
      by_cases hc : lumpDelta s = lumpDelta x ∧ x.start ≤ s.qEnd
      · by_cases hg : s.qEnd < x.qEnd
        · rw [seedLumpGo_cons, if_pos hc, if_pos hg, seedLumpGo_cons s, if_pos hc, if_pos hg]
          have := ih { s with iSize := s.iSize + (x.qEnd - s.qEnd) } (by simp)
          rw [show lumpDelta { s with iSize := s.iSize + (x.qEnd - s.qEnd) } = lumpDelta s
            from by simp [lumpDelta, Seed.start_ref, Seed.start]] at this
          exact this
        · rw [seedLumpGo_cons, if_pos hc, if_neg hg, seedLumpGo_cons s, if_pos hc, if_neg hg]
          exact ih s (by simp)
      · rw [seedLumpGo_cons, if_neg hc, seedLumpGo_cons s, if_neg hc]
        rw [ih x (by simp)]

/-- Witness for `C10_seedLumping_amended` at a concrete input. -/
theorem C10_seedLumping_amended_witness :
    seedLumpingExecute [(⟨0, 2, 0, true⟩ : Seed)] (by simp) ≠ [] :=
  (C10_seedLumping_amended ⟨0, 2, 0, true⟩ [] (by simp)).1

/-! ## Pack (ma/inc/module/pack.h)

The packed reference store.  `xPackedNucSeqs` is the 2-bit packed forward
strand, one `Nat` per byte (each below 256, most significant base pair
first); `uiUnpackedSizeForwardStrand` is the number of base pairs on the
forward strand.  The private flag `bPackComprisesReverseStrand` (only
used by the legacy BWT path) is omitted. -/

structure SequenceInPack where
  sName : String
  sComment : String
  uiStartOffsetUnpacked : Nat
  uiLengthUnpacked : Nat
  gi : Nat
  uiNumberOfHoles : Nat
deriving DecidableEq, Repr, Inhabited

structure HoleDescriptor where
  offset : Nat
  length : Nat
  xHoleCharacter : Char
deriving DecidableEq, Repr, Inhabited

structure Pack where
  xVectorOfSequenceDescriptors : List SequenceInPack
  xVectorOfHoleDescriptors : List HoleDescriptor
  xPackedNucSeqs : List Nat
  seed : Nat
  uiUnpackedSizeForwardStrand : Nat
deriving DecidableEq, Repr

/-- `Pack::uiUnpackedSizeForwardPlusReverse`: `uiUnpackedSizeForwardStrand * 2`. -/
def Pack.uiUnpackedSizeForwardPlusReverse (P : Pack) : Nat :=
  P.uiUnpackedSizeForwardStrand * 2

/-- `Pack::uiStartOfReverseStrand`. -/
def Pack.uiStartOfReverseStrand (P : Pack) : Nat := P.uiUnpackedSizeForwardStrand

/-- `Pack::getNucleotideOnPos`:
`xPackedNucSeqs[ pos >> 2 ] >> ( ( ~pos & 3 ) << 1 ) & 3`.
Out-of-range access is undefined behaviour in the C++ (`operator[]`);
it is modelled by the `getD` default, and every theorem keeps positions
in range. -/
def Pack.getNucleotideOnPos (P : Pack) (uiPosition : Nat) : Nat :=
  ((P.xPackedNucSeqs.getD (uiPosition / 4) 0) >>> ((3 - uiPosition % 4) * 2)) &&& 3

/-- `Pack::bPositionIsOnReversStrand`: `uiPosition >= uiStartOfReverseStrand()`.
The argument is `Int` because `vExtractSubsection` applies it to signed
positions. -/
def Pack.bPositionIsOnReversStrand (P : Pack) (uiPosition : Int) : Bool :=
  decide ((P.uiStartOfReverseStrand : Int) ≤ uiPosition)

/-- `Pack::iAbsolutePosition`:
`bPositionIsOnReversStrand(p) ? uiUnpackedSizeForwardPlusReverse() - (p + 1) : p`. -/
def Pack.iAbsolutePosition (P : Pack) (uiPosition : Int) : Int :=
  if P.bPositionIsOnReversStrand uiPosition then
    (P.uiUnpackedSizeForwardPlusReverse : Int) - (uiPosition + 1)
  else uiPosition

/-- `Pack::uiPositionToReverseStrand`:
`uiUnpackedSizeForwardPlusReverse() - (p + 1)` (`uint64_t`; the theorems
only apply it to `p < 2 * forward_length`, where the `Nat` truncation
agrees with the C++ value). -/
def Pack.uiPositionToReverseStrand (P : Pack) (uiPositionOnForwardStrand : Nat) : Nat :=
  P.uiUnpackedSizeForwardPlusReverse - (uiPositionOnForwardStrand + 1)

/-- `Pack::startOfSequenceWithId`. -/
def Pack.startOfSequenceWithId (P : Pack) (iSequenceId : Nat) : Nat :=
  (P.xVectorOfSequenceDescriptors.getD iSequenceId default).uiStartOffsetUnpacked

/-- `Pack::lengthOfSequenceWithId`. -/
def Pack.lengthOfSequenceWithId (P : Pack) (iSequenceId : Nat) : Nat :=
  (P.xVectorOfSequenceDescriptors.getD iSequenceId default).uiLengthUnpacked

/-- `Pack::endOfSequenceWithId`: start plus length. -/
def Pack.endOfSequenceWithId (P : Pack) (iSequenceId : Nat) : Nat :=
  P.startOfSequenceWithId iSequenceId + P.lengthOfSequenceWithId iSequenceId

/-- The binary-search loop of `Pack::uiSequenceIdForPosition`, with the
loop variables `uiLeft`, `uiRight` and `uiMid` made explicit; the C++
`break` statements return the current `uiMid`.  The `while` loop halves
`uiRight - uiLeft` each turn; the explicit fuel (one more than the
number of descriptors at the entry call) strictly bounds the iteration
count, so the fuel-exhaustion branch is dead code. -/
def Pack.seqIdSearch (P : Pack) (iAbsPosition : Int) :
    Nat → Nat → Nat → Nat → Nat
  | 0, _, _, uiMid => uiMid
  | fuel + 1, uiLeft, uiRight, uiMid =>
    if uiLeft < uiRight then
      let m := (uiLeft + uiRight) / 2
      if ((P.xVectorOfSequenceDescriptors.getD m default).uiStartOffsetUnpacked : Int) ≤
          iAbsPosition then
        if m = P.xVectorOfSequenceDescriptors.length - 1 then m
        else if iAbsPosition <
            ((P.xVectorOfSequenceDescriptors.getD (m + 1) default).uiStartOffsetUnpacked :
              Int) then
          m
        else P.seqIdSearch iAbsPosition fuel (m + 1) uiRight m
      else P.seqIdSearch iAbsPosition fuel uiLeft m m
    else uiMid

/-- `Pack::uiSequenceIdForPosition` (former `bns_pos2rid`): binary search
over the contig start offsets after mapping the position to the forward
strand. -/
def Pack.uiSequenceIdForPosition (P : Pack) (uiPosition : Nat) : Nat :=
  P.seqIdSearch (P.iAbsolutePosition uiPosition)
    (P.xVectorOfSequenceDescriptors.length + 1) 0 P.xVectorOfSequenceDescriptors.length 0

/-- The bridging-extraction error of `Pack::vExtractSubsection`. -/
def bridgingExtractionMsg : String :=
  "(vExtractSubsection) Try to extract bridging sequence. This is impossible."

/-- `Pack::vExtractSubsection` (original name `bns_get_seq`), without the
`bAppend` mode (all call sites relevant to the claims pass a fresh
sequence).  The two `vRangeCheckAndThrow...` helpers live in a utility
header outside the provided sources; following the specification's
`OutOfRange` taxonomy, the exclusive check demands
`min <= value < max` and the inclusive one `min <= value <= max`.
The forward loop emits `getNucleotideOnPos`; the reverse loop walks the
absolute positions downward emitting `3 - getNucleotideOnPos`. -/
def Pack.vExtractSubsection (P : Pack) (iBegin iEnd : Int) : Except String (List Nat) :=
  if ¬ (0 ≤ iBegin ∧ iBegin < (P.uiUnpackedSizeForwardPlusReverse : Int)) then
    .error "(vExtractSubsection) out of range begin"
  else if ¬ (0 ≤ iEnd ∧ iEnd ≤ (P.uiUnpackedSizeForwardPlusReverse : Int)) then
    .error "(vExtractSubsection) out of range end"
  else if P.bPositionIsOnReversStrand iBegin ≠ P.bPositionIsOnReversStrand (iEnd - 1) then
    .error bridgingExtractionMsg
  else if ¬ (iBegin ≤ iEnd) then
    .error "(vExtractSubsection) Try to extract with begin greater than end."
  else if ¬ P.bPositionIsOnReversStrand iBegin then
    .ok ((List.range (iEnd - iBegin).toNat).map fun i => P.getNucleotideOnPos (iBegin.toNat + i))
  else
    let iAbsoluteBegin := (P.iAbsolutePosition iBegin).toNat
    .ok ((List.range (iEnd - iBegin).toNat).map fun i =>
      3 - P.getNucleotideOnPos (iAbsoluteBegin - i))

/-- Evaluation of `vExtractSubsection` for an in-range forward-strand
interval: the bases at positions `b, b+1, ..., e-1`. -/
theorem Pack.vExtractSubsection_forward_eval (P : Pack) (b e : Nat) (h1 : b < e)
    (h2 : e ≤ P.uiUnpackedSizeForwardStrand) :
    P.vExtractSubsection b e =
      .ok ((List.range (e - b)).map fun i => P.getNucleotideOnPos (b + i)) := by
  have hb : P.bPositionIsOnReversStrand b = false := by
    simp only [Pack.bPositionIsOnReversStrand, Pack.uiStartOfReverseStrand,
      decide_eq_false_iff_not, not_le]
    omega
  have he1 : P.bPositionIsOnReversStrand ((e : Int) - 1) = false := by
    simp only [Pack.bPositionIsOnReversStrand, Pack.uiStartOfReverseStrand,
      decide_eq_false_iff_not, not_le]
    omega
  unfold Pack.vExtractSubsection
  rw [if_neg (by simp only [Pack.uiUnpackedSizeForwardPlusReverse]; push_cast; omega),
    if_neg (by simp only [Pack.uiUnpackedSizeForwardPlusReverse]; push_cast; omega),
    if_neg (by simp [hb, he1]),
    if_neg (by omega),
    if_pos (by simp [hb])]
  have hn : ((e : Int) - (b : Int)).toNat = e - b := by omega
  have hbn : (b : Int).toNat = b := by omega
  rw [hn, hbn]

/-- Evaluation of `vExtractSubsection` for the reverse-strand image of an
in-range forward interval `[b, e)`: the complemented bases at absolute
positions `e-1, e-2, ..., b`. -/
theorem Pack.vExtractSubsection_reverse_eval (P : Pack) (b e : Nat) (h1 : b < e)
    (h2 : e ≤ P.uiUnpackedSizeForwardStrand) :
    P.vExtractSubsection ((P.uiUnpackedSizeForwardPlusReverse : Int) - e)
        ((P.uiUnpackedSizeForwardPlusReverse : Int) - b) =
      .ok ((List.range (e - b)).map fun i => 3 - P.getNucleotideOnPos (e - 1 - i)) := by
  have hL : P.uiUnpackedSizeForwardPlusReverse = P.uiUnpackedSizeForwardStrand * 2 := rfl
  unfold Pack.vExtractSubsection
  rw [if_neg (by omega),
    if_neg (by omega),
    if_neg (by
      simp only [ne_eq, not_not, Pack.bPositionIsOnReversStrand, Pack.uiStartOfReverseStrand,
        decide_eq_decide]
      omega),
    if_neg (by omega),
    if_neg (by
      simp only [Pack.bPositionIsOnReversStrand, Pack.uiStartOfReverseStrand,
        decide_eq_true_eq, not_not]
      omega)]
  have habs : (P.iAbsolutePosition ((P.uiUnpackedSizeForwardPlusReverse : Int) - e)).toNat =
      e - 1 := by
    unfold Pack.iAbsolutePosition
    rw [if_pos (by
      simp only [Pack.bPositionIsOnReversStrand, Pack.uiStartOfReverseStrand,
        decide_eq_true_eq]
      omega)]
    omega
  have hn : (((P.uiUnpackedSizeForwardPlusReverse : Int) - b) -
      ((P.uiUnpackedSizeForwardPlusReverse : Int) - e)).toNat = e - b := by omega
  rw [habs, hn]

/-- C1: for every `Pack` and every in-range forward-strand interval
`[b, e)`, extracting the image of the interval under the reverse-strand
mapping `p' = 2*forward_length - 1 - p` (`Pack::uiPositionToReverseStrand`),
namely the interval from `uiPositionToReverseStrand (e-1)` to
`uiPositionToReverseStrand b + 1`, yields exactly the reverse complement
of the extraction of `[b, e)`: the same bases in reverse order with each
base code `c` replaced by `3 - c`. -/
theorem C1_pack_reverse_extraction (P : Pack) (b e : Nat) (h1 : b < e)
    (h2 : e ≤ P.uiUnpackedSizeForwardStrand) :
    P.vExtractSubsection (P.uiPositionToReverseStrand (e - 1))
        (P.uiPositionToReverseStrand b + 1) =
      (P.vExtractSubsection b e).map fun l => l.reverse.map fun c => 3 - c := by
  have hL : P.uiUnpackedSizeForwardPlusReverse = P.uiUnpackedSizeForwardStrand * 2 := rfl
  have ha : ((P.uiPositionToReverseStrand (e - 1) : Nat) : Int) =
      (P.uiUnpackedSizeForwardPlusReverse : Int) - e := by
    unfold Pack.uiPositionToReverseStrand
    omega
  have hb' : ((P.uiPositionToReverseStrand b : Nat) : Int) + 1 =
      (P.uiUnpackedSizeForwardPlusReverse : Int) - b := by
    unfold Pack.uiPositionToReverseStrand
    omega
  rw [show ((P.uiPositionToReverseStrand (e - 1) : Nat) : Int) =
      (P.uiUnpackedSizeForwardPlusReverse : Int) - e from ha]
  rw [show ((P.uiPositionToReverseStrand b : Nat) : Int) + 1 =
      (P.uiUnpackedSizeForwardPlusReverse : Int) - b from hb']
  rw [P.vExtractSubsection_reverse_eval b e h1 h2,
    P.vExtractSubsection_forward_eval b e h1 h2]
  simp only [Except.map]
  congr 1
  apply List.ext_getElem
  · simp
  · intro i hi1 hi2
    simp only [List.length_map, List.length_range] at hi1
    simp only [List.getElem_map, List.getElem_range, List.getElem_reverse, List.length_map,
      List.length_range, List.length_reverse]
    rw [show b + (e - b - 1 - i) = e - 1 - i from by omega]

/-- A small concrete pack: one contig of 4 base pairs `A C G T`
(packed byte `0b00011011 = 27`). -/
def packDemo : Pack :=
  { xVectorOfSequenceDescriptors := [⟨"chrA", "none", 0, 4, 0, 0⟩]
    xVectorOfHoleDescriptors := []
    xPackedNucSeqs := [27]
    seed := 7
    uiUnpackedSizeForwardStrand := 4 }

/-- Witness for `C1_pack_reverse_extraction` on `packDemo` with `[b, e) = [1, 3)`. -/
theorem C1_pack_reverse_extraction_witness :
    packDemo.vExtractSubsection (packDemo.uiPositionToReverseStrand (3 - 1))
        (packDemo.uiPositionToReverseStrand 1 + 1) =
      (packDemo.vExtractSubsection 1 3).map (fun l => l.reverse.map fun c => 3 - c) :=
  C1_pack_reverse_extraction packDemo 1 3 (by decide) (by decide)

/-- C2: for every pack and every request `[b, e)` with
`0 <= b < e <= 2 * forward_length`, `vExtractSubsection` raises the
bridging-extraction error exactly when `b` and `e-1` lie on opposite
sides of the forward/reverse seam at `forward_length`; a non-bridging
in-range request never raises any error. -/
theorem C2_extract_bridging_iff (P : Pack) (b e : Nat) (h1 : b < e)
    (h2 : e ≤ P.uiUnpackedSizeForwardPlusReverse) :
    (P.vExtractSubsection b e = .error bridgingExtractionMsg ↔
      ¬ (P.uiUnpackedSizeForwardStrand ≤ b ↔ P.uiUnpackedSizeForwardStrand ≤ e - 1)) ∧
    ((P.uiUnpackedSizeForwardStrand ≤ b ↔ P.uiUnpackedSizeForwardStrand ≤ e - 1) →
      ∃ l, P.vExtractSubsection b e = .ok l) := by
  have hL : P.uiUnpackedSizeForwardPlusReverse = P.uiUnpackedSizeForwardStrand * 2 := rfl
  have hbrev : (P.bPositionIsOnReversStrand b = P.bPositionIsOnReversStrand ((b : Int) + (e - b) - 1)) ↔
      (P.uiUnpackedSizeForwardStrand ≤ b ↔ P.uiUnpackedSizeForwardStrand ≤ e - 1) := by
    simp only [Pack.bPositionIsOnReversStrand, Pack.uiStartOfReverseStrand, decide_eq_decide]
    omega
  have harg : ((e : Int)) - 1 = (b : Int) + (e - b) - 1 := by omega
  unfold Pack.vExtractSubsection
  rw [if_neg (by omega), if_neg (by omega), harg]
  by_cases hbr : P.bPositionIsOnReversStrand b = P.bPositionIsOnReversStrand ((b : Int) + (e - b) - 1)
  · rw [if_neg (not_not_intro hbr), if_neg (by omega)]
    refine ⟨⟨?_, ?_⟩, ?_⟩
    · intro hcon
      by_cases hfwd : ¬ (P.bPositionIsOnReversStrand b = true)
      · rw [if_pos hfwd] at hcon
        exact absurd hcon (by simp)
      · rw [if_neg hfwd] at hcon
        exact absurd hcon (by simp)
    · intro hcon
      exact absurd (hbrev.mp hbr) hcon
    · intro _
      by_cases hfwd : ¬ (P.bPositionIsOnReversStrand b = true)
      · exact ⟨_, by rw [if_pos hfwd]⟩
      · exact ⟨_, by rw [if_neg hfwd]⟩
  · rw [if_pos hbr]
    refine ⟨⟨fun _ hiff => hbr (hbrev.mpr hiff), fun _ => rfl⟩, ?_⟩
    intro hiff
    exact absurd (hbrev.mpr hiff) hbr

/-- A concrete pack with `forward_length = 1000` (one contig, all-`A`
forward strand). -/
def packL1000 : Pack :=
  { xVectorOfSequenceDescriptors := [⟨"chr1", "none", 0, 1000, 0, 0⟩]
    xVectorOfHoleDescriptors := []
    xPackedNucSeqs := List.replicate 250 0
    seed := 0
    uiUnpackedSizeForwardStrand := 1000 }

/-- Witness for `C2_extract_bridging_iff`: on a pack with
`forward_length = 1000` the request `[990, 1010)` crosses the seam and
fails with the bridging-extraction error. -/
theorem C2_extract_bridging_iff_witness :
    packL1000.vExtractSubsection 990 1010 = .error bridgingExtractionMsg :=
  (C2_extract_bridging_iff packL1000 990 1010 (by decide) (by decide)).1.mpr (by decide)

/-! ## Pack serialisation (`.pac` / `.ann` / `.amb`)

The `.ann` and `.amb` files are written with `operator<<` and read back
with `operator>>` / `getline`.  Formatted iostream I/O is modelled at
whitespace-token level: a file is a list of lines, a line a list of
tokens; `<<` of a number or character appends one token, `<<` of a
string appends one token per blank-separated word of the string (the
writer emits the raw bytes, which the reader re-tokenizes), and `"\n"`
ends the line; `>>` skips whitespace (including line breaks) and
consumes the next token; `getline` consumes the remainder of the
current line.  The `.pac` file is binary and is modelled as its list of
bytes. -/

structure ShadowInterval where
  startPos : Nat
  endPos : Nat
deriving DecidableEq, Repr

/-- `LineSweep::getLeftShadow`: interval from `pSeed->start()` to
`pSeed->end_ref() - pSeed->start() + uiQueryLength`.  The
`uiBucketStart` parameter is ignored (its use is commented out in the
source).  The `nucSeqIndex` subtraction can wrap in C++; the value is
taken modulo `2^64` (exact for `pSeed->start() < 2^64`). -/
def getLeftShadow (uiBucketStart : Nat) (pSeed : Seed) (uiQueryLength : Nat) :
    ShadowInterval :=
  ⟨pSeed.start, (pSeed.end_ref + 2 ^ 64 - pSeed.start + uiQueryLength) % 2 ^ 64⟩

/-- `LineSweep::getRightShadow`: interval from `pSeed->start_ref()` to
`pSeed->end() - pSeed->start_ref() + iRefSize`; `iBucketStart` is
unused. -/
def getRightShadow (iBucketStart : Nat) (pSeed : Seed) (iRefSize : Nat) :
    ShadowInterval :=
  ⟨pSeed.start_ref, (pSeed.qEnd + 2 ^ 64 - pSeed.start_ref + iRefSize) % 2 ^ 64⟩

/-- C8, counterexample: the claim reads the additive constant of the
left shadow as the strip's query-side left border `Q_L`.  In
`LineSweep::execute` the third argument is the query length, and the
bucket-start parameter is ignored: with strip border 5, query length 100
and the seed `(q=0, len=10, r=0)` the code yields end `110`, not the
claimed `10 - 0 + 5 = 15`. -/
theorem C8_shadow_counterexample :
    getLeftShadow 5 ⟨0, 10, 0, true⟩ 100 = ⟨0, 110⟩ ∧
    (⟨0, 110⟩ : ShadowInterval) ≠ ⟨0, 15⟩ := by
  constructor
  · rfl
  · decide

/-- C8 (amended): the left shadow of a seed is the interval from
`s.q_start` to `s.r_end - s.q_start + Q` where `Q` is the query length
(not the strip's left border, whose parameter the code ignores), and the
right shadow is the interval from `s.r_start` to
`s.q_end - s.r_start + R` with `R` the r-axis length passed by the
sweep (`uiUnpackedSizeForwardPlusReverse`). -/
theorem C8_shadows_amended (b b' : Nat) (s : Seed) (q r : Nat)
    (hq : s.start ≤ s.end_ref) (hqb : s.end_ref - s.start + q < 2 ^ 64)
    (hr : s.start_ref ≤ s.qEnd) (hrb : s.qEnd - s.start_ref + r < 2 ^ 64) :
    getLeftShadow b s q = ⟨s.start, s.end_ref - s.start + q⟩ ∧
    getRightShadow b s r = ⟨s.start_ref, s.qEnd - s.start_ref + r⟩ ∧
    getLeftShadow b s q = getLeftShadow b' s q ∧
    getRightShadow b s r = getRightShadow b' s r := by
  refine ⟨?_, ?_, rfl, rfl⟩
  · unfold getLeftShadow
    congr 1
    omega
  · unfold getRightShadow
    congr 1
    omega

/-- Witness for `C8_shadows_amended`. -/
theorem C8_shadows_amended_witness :
    getLeftShadow 5 ⟨0, 10, 0, true⟩ 100 = ⟨0, 110⟩ :=
  (C8_shadows_amended 5 7 ⟨0, 10, 0, true⟩ 100 200 (by decide) (by decide) (by decide)
    (by decide)).1

/-! ## NeedlemanWunsch::execute (needlemanWunsch.cpp, lines 252-313)

The old full-DP module walks the sorted seed chain; between seeds it
calls the recursive `needlemanWunsch` gap filler, and for each seed it
appends a match run shortened by the overlap with the previous chain
end, plus a deletion or insertion run sized to the overlap difference.
`Alignment` (alignment.h is not among the provided sources) is modelled
from the specification (§3) as a sequence of `(MatchType, length)`
runs; `Alignment::append(t, len)` appends one run. -/

inductive MatchType
  | match_
  | missmatch
  | insertion
  | deletion
  | seed
deriving DecidableEq, Repr

abbrev AlignmentRun := MatchType × Nat

structure NWChainState where
  endOfLastSeedQuery : Nat
  endOfLastSeedReference : Nat
deriving DecidableEq, Repr

/-- The overlap bookkeeping and run emission for one seed of the chain
(lines 266-307): `ovQ = endOfLastSeedQuery - rSeed.start()` unless the
seed starts after the previous end (then 0), `ovR` likewise on the
reference (shifted by `beginRef`); a match run of `len - max(ovQ, ovR)`
when positive, a deletion run of `ovQ - ovR` when `ovQ > ovR`, an
insertion run of `ovR - ovQ` when `ovR > ovQ`.  The inner
`rSeed.start_ref() - beginRef` is `uint64_t`; the theorems assume
`beginRef <= start_ref`, where `Nat` truncation and C++ agree. -/
def seedOverlapRuns (beginRef : Nat) (st : NWChainState) (rSeed : Seed) :
    List AlignmentRun :=
  let ovQ := if rSeed.start > st.endOfLastSeedQuery then 0
             else st.endOfLastSeedQuery - rSeed.start
  let ovR := if rSeed.start_ref > st.endOfLastSeedReference + beginRef then 0
             else st.endOfLastSeedReference - (rSeed.start_ref - beginRef)
  let len := rSeed.size
  let overlap := max ovQ ovR
  (if len > overlap then [(MatchType.match_, len - overlap)] else []) ++
  (if ovQ > ovR then [(MatchType.deletion, ovQ - ovR)] else []) ++
  (if ovR > ovQ then [(MatchType.insertion, ovR - ovQ)] else [])

/-- The chain-state update after one seed (lines 309-312). -/
def seedChainStep (beginRef : Nat) (st : NWChainState) (rSeed : Seed) : NWChainState :=
  { endOfLastSeedQuery :=
      if rSeed.qEnd > st.endOfLastSeedQuery then rSeed.qEnd else st.endOfLastSeedQuery
    endOfLastSeedReference :=
      if rSeed.end_ref > st.endOfLastSeedReference + beginRef then rSeed.end_ref - beginRef
      else st.endOfLastSeedReference }

/-- The seed loop of `NeedlemanWunsch::execute`, with the recursive
`needlemanWunsch` gap filler abstracted as `gapFill` (receiving the four
query/reference bounds exactly as at the call site). -/
def nwExecuteChain (gapFill : Nat → Nat → Nat → Nat → List AlignmentRun)
    (beginRef : Nat) (seeds : List Seed) : List AlignmentRun × NWChainState :=
  seeds.foldl
    (fun acc rSeed =>
      (acc.1 ++
        gapFill acc.2.endOfLastSeedQuery rSeed.start acc.2.endOfLastSeedReference
          (rSeed.start_ref - beginRef) ++
        seedOverlapRuns beginRef acc.2 rSeed,
       seedChainStep beginRef acc.2 rSeed))
    ([], ⟨0, 0⟩)

/-- C7: with `ovQ` the query overlap and `ovR` the reference overlap of
the current seed against the previous chain end, the seed contributes a
match run of length `size - max(ovQ, ovR)` (when positive), a deletion
run of `ovQ - ovR` when `ovQ > ovR`, and an insertion run of
`ovR - ovQ` when `ovR > ovQ`; and each chain step appends exactly the
gap-fill runs followed by this contribution. -/
theorem C7_nw_overlap_runs (beginRef : Nat) (st : NWChainState) (s : Seed)
    (href : beginRef ≤ s.start_ref) :
    (seedOverlapRuns beginRef st s =
      (let ovQ := if st.endOfLastSeedQuery < s.start then 0
                  else st.endOfLastSeedQuery - s.start
       let ovR := if st.endOfLastSeedReference + beginRef < s.start_ref then 0
                  else st.endOfLastSeedReference + beginRef - s.start_ref
       (if max ovQ ovR < s.size then [(MatchType.match_, s.size - max ovQ ovR)] else []) ++
       (if ovR < ovQ then [(MatchType.deletion, ovQ - ovR)] else []) ++
       (if ovQ < ovR then [(MatchType.insertion, ovR - ovQ)] else []))) ∧
    (∀ (gapFill : Nat → Nat → Nat → Nat → List AlignmentRun) (pre : List Seed),
      (nwExecuteChain gapFill beginRef (pre ++ [s])).1 =
        (nwExecuteChain gapFill beginRef pre).1 ++
          gapFill (nwExecuteChain gapFill beginRef pre).2.endOfLastSeedQuery s.start
            (nwExecuteChain gapFill beginRef pre).2.endOfLastSeedReference
            (s.start_ref - beginRef) ++
          seedOverlapRuns beginRef (nwExecuteChain gapFill beginRef pre).2 s) := by
  constructor
  · unfold seedOverlapRuns
    have hovq : (if s.start > st.endOfLastSeedQuery then 0
        else st.endOfLastSeedQuery - s.start) =
        (if st.endOfLastSeedQuery < s.start then 0
        else st.endOfLastSeedQuery - s.start) := by
      by_cases hx : st.endOfLastSeedQuery < s.start <;> simp [hx]
    have hovr : (if s.start_ref > st.endOfLastSeedReference + beginRef then 0
        else st.endOfLastSeedReference - (s.start_ref - beginRef)) =
        (if st.endOfLastSeedReference + beginRef < s.start_ref then 0
        else st.endOfLastSeedReference + beginRef - s.start_ref) := by
      by_cases hx : st.endOfLastSeedReference + beginRef < s.start_ref <;> simp [hx] <;> omega
    rw [hovq, hovr]
  · intro gapFill pre
    unfold nwExecuteChain
    rw [List.foldl_append]
    simp

/-- Witness for `C7_nw_overlap_runs`: a seed of size 10 whose start lies
5 before the previous chain end on the query and 2 before it on the
reference contributes `match 5, deletion 3`. -/
theorem C7_nw_overlap_runs_witness :
    seedOverlapRuns 0 ⟨20, 42⟩ ⟨15, 10, 40, true⟩ =
      [(MatchType.match_, 5), (MatchType.deletion, 3)] := by
  have h := (C7_nw_overlap_runs 0 ⟨20, 42⟩ ⟨15, 10, 40, true⟩ (by decide)).1
  rw [h]
  rfl

/-! ## The DP fallback of `SvJumpsFromSeeds::computeSeeds`
(svJumpsFromSeeds.cpp, lines 190-221)

In a repetitive rectangle the module aligns the query slice against the
rectangle's reference (forward) and its reverse complement with
`xNW.ksw` (kswcpp, an external kernel: the two alignment scores and seed
conversions enter as parameters), maps the reverse-strand seeds back
into global coordinates, and keeps the forward seeds unless the reverse
score is strictly greater. -/

structure GeomInterval where
  iStart : Nat
  iSize : Nat
deriving DecidableEq, Repr

/-- `geom::Interval::end()`. -/
def GeomInterval.endPos (i : GeomInterval) : Nat := i.iStart + i.iSize

structure Rect where
  xXAxis : GeomInterval
  xYAxis : GeomInterval
deriving DecidableEq, Repr

/-- The reverse-seed fix-up loop (lines 205-216): flip the strand,
mirror the reference position inside the rectangle
(`xXAxis.end() - pos - 1`, asserted non-negative in the source), shift
the query start by the rectangle's query offset. -/
def fixRevSeed (xXAxisEnd yAxisStart : Nat) (s : Seed) : Seed :=
  { s with bOnForwStrand := false
           uiPosOnReference := xXAxisEnd - s.uiPosOnReference - 1
           iStart := s.iStart + yAxisStart }

/-- Lines 194-221: the strand choice of the DP fallback.
`pFAlignment->score()` and `pRAlignment->score()` with the two
`toSeeds` results are parameters (kswcpp is external). -/
def computeSeedsDpBranch (xArea : Rect) (pFAlignmentScore pRAlignmentScore : Int)
    (pForwSeeds pRevSeeds : List Seed) : List Seed :=
  let pRevSeedsFixed := pRevSeeds.map (fixRevSeed xArea.xXAxis.endPos xArea.xYAxis.iStart)
  if pFAlignmentScore ≥ pRAlignmentScore then pForwSeeds else pRevSeedsFixed

/-- C9: the reverse-strand seeds are returned only when the reverse
alignment's score is strictly greater than the forward one's; on equal
scores the forward-strand seeds are returned. -/
theorem C9_dp_fallback_tie_break (xArea : Rect) (fScore rScore : Int)
    (pForwSeeds pRevSeeds : List Seed) :
    (rScore ≤ fScore →
      computeSeedsDpBranch xArea fScore rScore pForwSeeds pRevSeeds = pForwSeeds) ∧
    (fScore < rScore →
      computeSeedsDpBranch xArea fScore rScore pForwSeeds pRevSeeds =
        pRevSeeds.map (fixRevSeed xArea.xXAxis.endPos xArea.xYAxis.iStart)) ∧
    (fScore = rScore →
      computeSeedsDpBranch xArea fScore rScore pForwSeeds pRevSeeds = pForwSeeds) := by
  refine ⟨fun h => ?_, fun h => ?_, fun h => ?_⟩
  · unfold computeSeedsDpBranch
    rw [if_pos h]
  · unfold computeSeedsDpBranch
    rw [if_neg (by omega)]
  · unfold computeSeedsDpBranch
    rw [if_pos (by omega)]

/-- Witness for `C9_dp_fallback_tie_break`: equal scores keep the
forward seeds. -/
theorem C9_dp_fallback_tie_break_witness :
    computeSeedsDpBranch ⟨⟨0, 10⟩, ⟨0, 10⟩⟩ 5 5 [⟨0, 3, 0, true⟩] [⟨1, 3, 1, true⟩] =
      [⟨0, 3, 0, true⟩] :=
  (C9_dp_fallback_tie_break ⟨⟨0, 10⟩, ⟨0, 10⟩⟩ 5 5 [⟨0, 3, 0, true⟩]
    [⟨1, 3, 1, true⟩]).2.2 rfl

/-! ## SvJumpsFromSeeds (svJumpsFromSeeds.cpp / svJumpsFromSeeds.h)

The rectangle construction between consecutive seeds, the reseeding
guard, and the SV-jump emission.  Configuration values come from the
runtime parameter set; `dExtraSeedingAreaFactor` is the fixed member
value `1.5`.  `SvJump` itself (msv/container/svJump.h) is not among the
provided sources and is modelled from the specification where noted. -/

structure SvCfg where
  iMaxSizeReseed : Nat
  bDoDummyJumps : Bool
  uiMinDistDummy : Nat
  uiMaxDistDummy : Nat
  uiMaxSvDistanceRecorded : Nat
deriving Repr

/-- `xDummySeed`: a default-constructed `Seed` (zero query interval and
reference position).  Its `bOnForwStrand` member is never initialised in
the C++; the model fixes it to `true`; no claim exercises a path that
reads it. -/
def xDummySeed : Seed := ⟨0, 0, 0, true⟩

/-- `( int64_t )( x * dExtraSeedingAreaFactor )` with
`dExtraSeedingAreaFactor = 1.5`: multiplication by `1.5` and truncation,
`x + x / 2` (exact in `double` for the magnitudes involved). -/
def extraSeedingArea (x : Nat) : Nat := 3 * x / 2

/-- The `iQueryDistance` computation repeated in each dummy branch of
`getPositionsForSeeds` (e.g. lines 39-41): scale the query gap by the
extra-seeding factor and cap at `iMaxSizeReseed / 2`. -/
def iQueryDistanceOf (cfg : SvCfg) (gap : Nat) : Nat :=
  let d := extraSeedingArea gap
  if cfg.iMaxSizeReseed / 2 < d then cfg.iMaxSizeReseed / 2 else d

/-- Lines 31-59: the inclusive reference end of the gap.  A `none` seed
is the dummy; the subtractions on `nucSeqIndex` stay in range thanks to
the early exits of the caller (noted per theorem). -/
def computeLastRef (cfg : SvCfg) (P : Pack) (rLast rNext : Option Seed)
    (uiQStart : Nat) : Int :=
  match rLast with
  | none =>
    let n := rNext.getD xDummySeed
    let iQueryDistance : Int := iQueryDistanceOf cfg (n.start - uiQStart)
    if n.bOnForwStrand then
      let iStartOfContig : Int :=
        P.startOfSequenceWithId (P.uiSequenceIdForPosition n.start_ref)
      max iStartOfContig ((n.start_ref : Int) - iQueryDistance)
    else
      let iEndOfContig : Int :=
        P.endOfSequenceWithId (P.uiSequenceIdForPosition (n.start_ref + 1))
      min iEndOfContig ((n.start_ref : Int) + 1 + iQueryDistance)
  | some l =>
    if l.bOnForwStrand then (l.end_ref : Int)
    else (l.start_ref : Int) - l.size + 1

/-- Lines 61-90: the exclusive reference start of the gap. -/
def computeNextRef (cfg : SvCfg) (P : Pack) (rLast rNext : Option Seed)
    (uiQEnd : Nat) : Int :=
  match rNext with
  | none =>
    let l := rLast.getD xDummySeed
    let iQueryDistance : Int := iQueryDistanceOf cfg (uiQEnd - l.qEnd)
    if l.bOnForwStrand then
      let iEndOfContig : Int :=
        P.endOfSequenceWithId (P.uiSequenceIdForPosition l.end_ref)
      min iEndOfContig ((l.end_ref : Int) + iQueryDistance)
    else
      let iStartOfContig : Int :=
        P.startOfSequenceWithId (P.uiSequenceIdForPosition (l.start_ref + 1 - l.size))
      max iStartOfContig ((l.start_ref : Int) + 1 - ((l.size : Int) + iQueryDistance))
  | some n =>
    if n.bOnForwStrand then (n.start_ref : Int) else (n.start_ref : Int) + 1

/-- `geom::Rectangle<nucSeqIndex>( 0, 0, 0, 0 )`. -/
def emptyRect : Rect := ⟨⟨0, 0⟩, ⟨0, 0⟩⟩

/-- Line 21: real seeds overlapping on the query. -/
def overlapCheck : Option Seed → Option Seed → Bool
  | some l, some n => n.start < l.qEnd
  | _, _ => false

/-- Line 23: `rLast.end( ) >= uiQEnd` for a real `rLast`. -/
def lastEndCheck (uiQEnd : Nat) : Option Seed → Bool
  | some l => uiQEnd ≤ l.qEnd
  | none => false

/-- Line 25: `rNext.start( ) <= uiQStart` for a real `rNext`. -/
def nextStartCheck (uiQStart : Nat) : Option Seed → Bool
  | some n => n.start ≤ uiQStart
  | none => false

/-- Lines 104-107: the split condition for two real seeds — rectangle
too large, seeds pointing the wrong way (different strands give
`iRefSize = -1`), or reference endpoints in different contigs.  The
`int64_t` positions are converted to `uint64_t` for the contig lookup;
`toNat` models this (they are non-negative in every theorem). -/
def svSplitCond (cfg : SvCfg) (P : Pack) (l n : Seed) (uiQStart uiQEnd : Nat) : Prop :=
  let iLastRef := computeLastRef cfg P (some l) (some n) uiQStart
  let iNextRef := computeNextRef cfg P (some l) (some n) uiQEnd
  let iRefSize : Int :=
    if l.bOnForwStrand ∧ n.bOnForwStrand then iNextRef - iLastRef
    else if ¬ l.bOnForwStrand ∧ ¬ n.bOnForwStrand then iLastRef - iNextRef
    else -1
  (cfg.iMaxSizeReseed : Int) < iRefSize ∨ iRefSize < 0 ∨
    P.uiSequenceIdForPosition iLastRef.toNat ≠ P.uiSequenceIdForPosition (iNextRef - 1).toNat

instance (cfg : SvCfg) (P : Pack) (l n : Seed) (uiQStart uiQEnd : Nat) :
    Decidable (svSplitCond cfg P l n uiQStart uiQEnd) := by
  unfold svSplitCond; infer_instance

/-- Lines 113-122: the common tail building the rectangle pair from the
two reference endpoints (second rectangle empty). -/
def positionsForSeedsTail (rLast rNext : Option Seed) (uiQStart uiQEnd : Nat)
    (iLastRef iNextRef : Int) : Rect × Rect :=
  let iRefStart := min iLastRef iNextRef
  let iRefEnd := max iLastRef iNextRef
  let iRefSize := iRefEnd - iRefStart
  let iRectQStart : Nat := match rLast with | some l => l.qEnd | none => uiQStart
  let iRectQEnd : Nat := match rNext with | some n => n.start | none => uiQEnd
  (⟨⟨iRefStart.toNat, iRefSize.toNat⟩, ⟨iRectQStart, iRectQEnd - iRectQStart⟩⟩, emptyRect)

/-- `SvJumpsFromSeeds::getPositionsForSeeds` (lines 16-123).  A `none`
seed stands for `xDummySeed`.  The self-recursion (the split into two
dummy-sided calls) always replaces one real seed by the dummy, so its
depth is exactly one; the structural `fuel` argument makes that bound
explicit (the fuel-exhaustion branch is dead code). -/
def getPositionsForSeedsGo (cfg : SvCfg) (P : Pack) :
    Nat → Option Seed → Option Seed → Nat → Nat → Rect × Rect
  | 0, _, _, _, _ => (emptyRect, emptyRect)
  | fuel + 1, rLast, rNext, uiQStart, uiQEnd =>
    if overlapCheck rLast rNext then (emptyRect, emptyRect)
    else if lastEndCheck uiQEnd rLast then (emptyRect, emptyRect)
    else if nextStartCheck uiQStart rNext then (emptyRect, emptyRect)
    else
      let iLastRef := computeLastRef cfg P rLast rNext uiQStart
      let iNextRef := computeNextRef cfg P rLast rNext uiQEnd
      if iLastRef = iNextRef then (emptyRect, emptyRect)
      else
        match rLast, rNext with
        | some l, some n =>
          if svSplitCond cfg P l n uiQStart uiQEnd then
            ((getPositionsForSeedsGo cfg P fuel (some l) none l.qEnd n.start).1,
             (getPositionsForSeedsGo cfg P fuel none (some n) l.qEnd n.start).1)
          else positionsForSeedsTail (some l) (some n) uiQStart uiQEnd iLastRef iNextRef
        | _, _ => positionsForSeedsTail rLast rNext uiQStart uiQEnd iLastRef iNextRef

def getPositionsForSeeds (cfg : SvCfg) (P : Pack) (rLast rNext : Option Seed)
    (uiQStart uiQEnd : Nat) : Rect × Rect :=
  getPositionsForSeedsGo cfg P 2 rLast rNext uiQStart uiQEnd

/-- With a dummy on either side no recursion happens, so the fuel value
is irrelevant (any positive amount). -/
theorem getPositionsForSeedsGo_dummy_fuel (cfg : SvCfg) (P : Pack)
    (f1 f2 : Nat) (rLast rNext : Option Seed) (uiQStart uiQEnd : Nat)
    (h : rLast = none ∨ rNext = none) :
    getPositionsForSeedsGo cfg P (f1 + 1) rLast rNext uiQStart uiQEnd =
      getPositionsForSeedsGo cfg P (f2 + 1) rLast rNext uiQStart uiQEnd := by
  rcases h with rfl | rfl
  · cases rNext <;> rfl
  · cases rLast <;> rfl

/-- `SvJumpsFromSeeds::computeSeeds` on one rectangle (lines 126-222):
the zero-size guard returns without adding seeds; the in-rectangle seed
discovery behind it (hash-map k-mer seeding, or the kswcpp DP fallback
of `computeSeedsDpBranch`, chosen by the sampled ambiguity — all driven
by external components) is the parameter `findSeeds`. -/
def computeSeedsRect (findSeeds : Rect → List Seed) (xArea : Rect) : List Seed :=
  if xArea.xXAxis.iSize = 0 ∨ xArea.xYAxis.iSize = 0 then [] else findSeeds xArea

/-- `SvJumpsFromSeeds::computeSeeds` on the rectangle pair
(lines 224-237): seeds of both rectangles, then — only when any were
found — the seed lumper. -/
def computeSeedsPair (findSeeds : Rect → List Seed) (xAreas : Rect × Rect) : List Seed :=
  let pSeeds := computeSeedsRect findSeeds xAreas.1 ++ computeSeedsRect findSeeds xAreas.2
  if h : pSeeds = [] then pSeeds
  else seedLumpingExecute pSeeds h

/-- Modelled from the spec: the `SvJump` record (§3: two reference
positions, the query interval, strand flags, read id, dummy flag and
`max_dist` for dummies); msv/container/svJump.h is not among the
provided sources.  `from_start` keeps the boolean passed to the
constructor (`false` for the left dummy built from `next`, `true` for
the right dummy built from `last`). -/
structure SvJump where
  from_pos : Nat
  to_pos : Nat
  q_from : Nat
  q_to : Nat
  from_forward : Bool
  to_forward : Bool
  read_id : Nat
  dummy_flag : Bool
  from_start : Bool
  max_dist : Nat
deriving DecidableEq, Repr

/-- Modelled from the spec: the dummy-jump constructor
`SvJump( rSeed, uiQLen, bFromStart, iReadId, uiMaxDistDummy )`.
§4.5.3: the left dummy jump (built from `next`, `bFromStart = false`)
is `{q_from = 0, to = next.r_start, max_dist = max_dist_dummy}`; the
right dummy (from `last`) is symmetric at the query end. -/
def mkDummyJump (rSeed : Seed) (uiQLen : Nat) (bFromStart : Bool) (iReadId : Nat)
    (uiMaxDist : Nat) : SvJump :=
  if bFromStart then
    { from_pos := rSeed.end_ref, to_pos := rSeed.end_ref, q_from := rSeed.qEnd,
      q_to := uiQLen, from_forward := rSeed.bOnForwStrand,
      to_forward := rSeed.bOnForwStrand, read_id := iReadId, dummy_flag := true,
      from_start := true, max_dist := uiMaxDist }
  else
    { from_pos := rSeed.start_ref, to_pos := rSeed.start_ref, q_from := 0,
      q_to := rSeed.start, from_forward := rSeed.bOnForwStrand,
      to_forward := rSeed.bOnForwStrand, read_id := iReadId, dummy_flag := true,
      from_start := false, max_dist := uiMaxDist }

/-- Modelled from the spec: `SvJump::validJump(a, b, forward_context)`
(§4.5.3).  The strand clause — "on the same strand or the jump
intentionally crosses strands (inversion)" — admits every combination
and is omitted; the reference distance must not exceed
`max_sv_distance_recorded` and the query distance (from the earlier
seed's query end to the later seed's query start) must be
non-negative. -/
def validJump (cfg : SvCfg) (a b : Seed) (forwardContext : Bool) : Bool :=
  let refDist := max a.start_ref b.start_ref - min a.start_ref b.start_ref
  let qDist : Int :=
    if a.start ≤ b.start then (b.start : Int) - a.qEnd else (a.start : Int) - b.qEnd
  refDist ≤ cfg.uiMaxSvDistanceRecorded ∧ 0 ≤ qDist

/-- Modelled from the spec: the two-seed jump constructor
`SvJump( a, b, forward_context, read_id )` (§3: a breakpoint candidate
defined by two reference positions on the same read). -/
def mkJump (a b : Seed) (forwardContext : Bool) (iReadId : Nat) : SvJump :=
  { from_pos := a.end_ref, to_pos := b.start_ref, q_from := a.qEnd, q_to := b.start,
    from_forward := a.bOnForwStrand, to_forward := b.bOnForwStrand, read_id := iReadId,
    dummy_flag := false, from_start := forwardContext, max_dist := 0 }

/-- Lines 296-311 of `makeJumpsByReseedingRecursive`: jump emission once
reseeding found no seeds between `rLast` and `rNext`.  With a dummy
present and `bDoDummyJumps`: a left dummy when `rNext` is real and
starts after `uiMinDistDummy`, a right dummy when `rLast` is real and
ends at least `uiMinDistDummy` before the query end.  Otherwise up to
two `validJump`-guarded jumps. -/
def emitJumps (cfg : SvCfg) (rLast rNext : Option Seed) (uiQLen iReadId : Nat) :
    List SvJump :=
  if (rLast.isNone ∨ rNext.isNone) ∧ cfg.bDoDummyJumps then
    (match rNext with
     | some n =>
       if cfg.uiMinDistDummy < n.start then
         [mkDummyJump n uiQLen false iReadId cfg.uiMaxDistDummy]
       else []
     | none => []) ++
    (match rLast with
     | some l =>
       if l.qEnd + cfg.uiMinDistDummy ≤ uiQLen then
         [mkDummyJump l uiQLen true iReadId cfg.uiMaxDistDummy]
       else []
     | none => [])
  else
    let l := rLast.getD xDummySeed
    let n := rNext.getD xDummySeed
    (if validJump cfg n l true then [mkJump n l true iReadId] else []) ++
    (if validJump cfg l n false then [mkJump l n false iReadId] else [])

/-- Stable insertion step for the query-start sort. -/
def insertSeedByStart (s : Seed) : List Seed → List Seed
  | [] => [s]
  | x :: xs => if s.start < x.start then s :: x :: xs else x :: insertSeedByStart s xs

/-- `std::sort` by `rA.start( ) < rB.start( )` (line 263).  The C++ sort
leaves the order of equal-start seeds unspecified; this stable insertion
sort is one refinement of it. -/
def sortSeedsByStart : List Seed → List Seed
  | [] => []
  | x :: xs => insertSeedByStart x (sortSeedsByStart xs)

/-- `SvJumpsFromSeeds::makeJumpsByReseedingRecursive` (lines 240-312).
The reseeding of the rectangle pair is `pfilter (computeSeedsPair
findSeeds ...)`, with `pfilter` standing for
`xParlindromeFilter.execute` (outside the provided sources) and
`findSeeds` for the in-rectangle discovery.  When seeds are found the
function recurses over the chain `rLast, s1, ..., sk, rNext`; `fuel`
bounds the recursion depth (every claim is settled at depth one). -/
def makeJumpsByReseedingRecursive (cfg : SvCfg) (P : Pack)
    (findSeeds : Rect → List Seed) (pfilter : List Seed → List Seed)
    (uiQLen iReadId : Nat) :
    Nat → Option Seed → Option Seed → List SvJump
  | 0, _, _ => []
  | fuel + 1, rLast, rNext =>
    let xRectangles := getPositionsForSeeds cfg P rLast rNext 0 uiQLen
    let pvSeeds := sortSeedsByStart (pfilter (computeSeedsPair findSeeds xRectangles))
    if pvSeeds = [] then emitJumps cfg rLast rNext uiQLen iReadId
    else
      ((rLast :: pvSeeds.map some).zip (pvSeeds.map some ++ [rNext])).flatMap
        fun pr => makeJumpsByReseedingRecursive cfg P findSeeds pfilter uiQLen iReadId
          fuel pr.1 pr.2

/-- The chain driver of `execute_helper` (lines 440-447): pairs
`(dummy, s1), (s1, s2), ..., (sk, dummy)` over the filtered seeds. -/
def svExecuteChainJumps (cfg : SvCfg) (P : Pack) (findSeeds : Rect → List Seed)
    (pfilter : List Seed → List Seed) (uiQLen iReadId fuel : Nat)
    (pFilteredSeeds : List Seed) : List SvJump :=
  ((none :: pFilteredSeeds.map some).zip (pFilteredSeeds.map some ++ [none])).flatMap
    fun pr => makeJumpsByReseedingRecursive cfg P findSeeds pfilter uiQLen iReadId
      fuel pr.1 pr.2

/-- A left dummy jump (built from `rNext` with constructor flag
`false`). -/
def isLeftDummy (j : SvJump) : Bool := j.dummy_flag && !j.from_start

/-- A right dummy jump (built from `rLast` with constructor flag
`true`). -/
def isRightDummy (j : SvJump) : Bool := j.dummy_flag && j.from_start

/-- One-step unfolding of `getPositionsForSeedsGo` on two real seeds. -/
theorem svGo_some_some (cfg : SvCfg) (P : Pack) (fuel : Nat) (l n : Seed) (a b : Nat) :
    getPositionsForSeedsGo cfg P (fuel + 1) (some l) (some n) a b =
      (if overlapCheck (some l) (some n) then (emptyRect, emptyRect)
       else if lastEndCheck b (some l) then (emptyRect, emptyRect)
       else if nextStartCheck a (some n) then (emptyRect, emptyRect)
       else if computeLastRef cfg P (some l) (some n) a =
           computeNextRef cfg P (some l) (some n) b then (emptyRect, emptyRect)
       else if svSplitCond cfg P l n a b then
         ((getPositionsForSeedsGo cfg P fuel (some l) none l.qEnd n.start).1,
          (getPositionsForSeedsGo cfg P fuel none (some n) l.qEnd n.start).1)
       else positionsForSeedsTail (some l) (some n) a b
         (computeLastRef cfg P (some l) (some n) a)
         (computeNextRef cfg P (some l) (some n) b)) := rfl

/-- One-step unfolding of `getPositionsForSeedsGo` with a dummy `next`. -/
theorem svGo_some_none (cfg : SvCfg) (P : Pack) (fuel : Nat) (l : Seed) (a b : Nat) :
    getPositionsForSeedsGo cfg P (fuel + 1) (some l) none a b =
      (if lastEndCheck b (some l) then (emptyRect, emptyRect)
       else if computeLastRef cfg P (some l) none a =
           computeNextRef cfg P (some l) none b then (emptyRect, emptyRect)
       else positionsForSeedsTail (some l) none a b
         (computeLastRef cfg P (some l) none a)
         (computeNextRef cfg P (some l) none b)) := rfl

/-- One-step unfolding of `getPositionsForSeedsGo` with a dummy `last`. -/
theorem svGo_none_some (cfg : SvCfg) (P : Pack) (fuel : Nat) (n : Seed) (a b : Nat) :
    getPositionsForSeedsGo cfg P (fuel + 1) none (some n) a b =
      (if nextStartCheck a (some n) then (emptyRect, emptyRect)
       else if computeLastRef cfg P none (some n) a =
           computeNextRef cfg P none (some n) b then (emptyRect, emptyRect)
       else positionsForSeedsTail none (some n) a b
         (computeLastRef cfg P none (some n) a)
         (computeNextRef cfg P none (some n) b)) := rfl

/-- The query-distance cap never exceeds `iMaxSizeReseed / 2`. -/
theorem iQueryDistanceOf_le (cfg : SvCfg) (gap : Nat) :
    iQueryDistanceOf cfg gap ≤ cfg.iMaxSizeReseed / 2 := by
  unfold iQueryDistanceOf extraSeedingArea
  dsimp only
  split <;> omega

theorem computeLastRef_some_fwd (cfg : SvCfg) (P : Pack) (l : Seed) (rNext : Option Seed)
    (a : Nat) (hl : l.bOnForwStrand = true) :
    computeLastRef cfg P (some l) rNext a = (l.end_ref : Int) := by
  simp [computeLastRef, hl]

theorem computeLastRef_some_rev (cfg : SvCfg) (P : Pack) (l : Seed) (rNext : Option Seed)
    (a : Nat) (hl : l.bOnForwStrand = false) :
    computeLastRef cfg P (some l) rNext a = (l.start_ref : Int) - l.size + 1 := by
  simp [computeLastRef, hl]

theorem computeNextRef_some_fwd (cfg : SvCfg) (P : Pack) (rLast : Option Seed) (n : Seed)
    (b : Nat) (hn : n.bOnForwStrand = true) :
    computeNextRef cfg P rLast (some n) b = (n.start_ref : Int) := by
  simp [computeNextRef, hn]

theorem computeNextRef_some_rev (cfg : SvCfg) (P : Pack) (rLast : Option Seed) (n : Seed)
    (b : Nat) (hn : n.bOnForwStrand = false) :
    computeNextRef cfg P rLast (some n) b = (n.start_ref : Int) + 1 := by
  simp [computeNextRef, hn]

theorem computeNextRef_none_fwd (cfg : SvCfg) (P : Pack) (l : Seed) (b : Nat)
    (hl : l.bOnForwStrand = true) :
    computeNextRef cfg P (some l) none b =
      min ((P.endOfSequenceWithId (P.uiSequenceIdForPosition l.end_ref) : Int))
        ((l.end_ref : Int) + (iQueryDistanceOf cfg (b - l.qEnd) : Int)) := by
  simp [computeNextRef, hl]

theorem computeNextRef_none_rev (cfg : SvCfg) (P : Pack) (l : Seed) (b : Nat)
    (hl : l.bOnForwStrand = false) :
    computeNextRef cfg P (some l) none b =
      max ((P.startOfSequenceWithId
          (P.uiSequenceIdForPosition (l.start_ref + 1 - l.size)) : Int))
        ((l.start_ref : Int) + 1 -
          ((l.size : Int) + (iQueryDistanceOf cfg (b - l.qEnd) : Int))) := by
  simp [computeNextRef, hl]

theorem computeLastRef_none_fwd (cfg : SvCfg) (P : Pack) (n : Seed) (a : Nat)
    (hn : n.bOnForwStrand = true) :
    computeLastRef cfg P none (some n) a =
      max ((P.startOfSequenceWithId (P.uiSequenceIdForPosition n.start_ref) : Int))
        ((n.start_ref : Int) - (iQueryDistanceOf cfg (n.start - a) : Int)) := by
  simp [computeLastRef, hn]

theorem computeLastRef_none_rev (cfg : SvCfg) (P : Pack) (n : Seed) (a : Nat)
    (hn : n.bOnForwStrand = false) :
    computeLastRef cfg P none (some n) a =
      min ((P.endOfSequenceWithId (P.uiSequenceIdForPosition (n.start_ref + 1)) : Int))
        ((n.start_ref : Int) + 1 + (iQueryDistanceOf cfg (n.start - a) : Int)) := by
  simp [computeLastRef, hn]

/-- C4: counterexample.  The seeds `last = (q=10,size=10,r=100,fwd)` and
`next = (q=30,size=5,r=109,rev)` lie on different strands, so the
claim's split condition holds; but `iLastRef = 110 = iNextRef`, the
early exit at line 92 fires first, and the call returns two empty
rectangles — not the pair of dummy-sided re-invocations, whose first
components are non-empty. -/
theorem C4_rect_split_counterexample :
    (⟨10, 10, 100, true⟩ : Seed).bOnForwStrand ≠
        (⟨30, 5, 109, false⟩ : Seed).bOnForwStrand ∧
      getPositionsForSeeds ⟨1000, true, 10, 100, 10000⟩ packL1000
          (some ⟨10, 10, 100, true⟩) (some ⟨30, 5, 109, false⟩) 0 500 ≠
        ((getPositionsForSeeds ⟨1000, true, 10, 100, 10000⟩ packL1000
            (some ⟨10, 10, 100, true⟩) none 20 30).1,
         (getPositionsForSeeds ⟨1000, true, 10, 100, 10000⟩ packL1000
            none (some ⟨30, 5, 109, false⟩) 20 30).1) := by
  refine ⟨by decide, ?_⟩
  decide

/-- C4 (amended): with two real seeds, when additionally none of the
early exits of lines 21-26 fires and the two reference endpoints differ
(the `iLastRef == iNextRef` exit of line 92, overlooked by the claim),
the split condition of lines 104-107 makes the result the pair of first
rectangles of the two dummy-sided re-invocations; each dummy-sided
rectangle's reference width is capped at `iMaxSizeReseed / 2`, and — for
a seed whose reference endpoint lies inside its contig — the rectangle
is clipped to that contig (towards the contig end on the side the
rectangle extends; the clip bound on the start side is stated for
non-empty rectangles, as the empty rectangle sits at the origin). -/
theorem C4_rect_split_amended (cfg : SvCfg) (P : Pack) (l n : Seed)
    (uiQStart uiQEnd : Nat)
    (h1 : ¬ n.start < l.qEnd) (h2 : ¬ uiQEnd ≤ l.qEnd) (h3 : ¬ n.start ≤ uiQStart)
    (h4 : computeLastRef cfg P (some l) (some n) uiQStart ≠
      computeNextRef cfg P (some l) (some n) uiQEnd)
    (h5 : svSplitCond cfg P l n uiQStart uiQEnd) :
    getPositionsForSeeds cfg P (some l) (some n) uiQStart uiQEnd =
      ((getPositionsForSeeds cfg P (some l) none l.qEnd n.start).1,
       (getPositionsForSeeds cfg P none (some n) l.qEnd n.start).1) ∧
    (l.bOnForwStrand = true →
      (l.end_ref : Int) ≤
        (P.endOfSequenceWithId (P.uiSequenceIdForPosition l.end_ref) : Int) →
      (getPositionsForSeeds cfg P (some l) none l.qEnd n.start).1.xXAxis.iSize ≤
          cfg.iMaxSizeReseed / 2 ∧
        (getPositionsForSeeds cfg P (some l) none l.qEnd n.start).1.xXAxis.endPos ≤
          P.endOfSequenceWithId (P.uiSequenceIdForPosition l.end_ref)) ∧
    (l.bOnForwStrand = false →
      (P.startOfSequenceWithId
          (P.uiSequenceIdForPosition (l.start_ref + 1 - l.size)) : Int) ≤
        (l.start_ref : Int) + 1 - (l.size : Int) →
      (getPositionsForSeeds cfg P (some l) none l.qEnd n.start).1.xXAxis.iSize ≤
          cfg.iMaxSizeReseed / 2 ∧
        ((getPositionsForSeeds cfg P (some l) none l.qEnd n.start).1.xXAxis.iSize ≠ 0 →
          P.startOfSequenceWithId (P.uiSequenceIdForPosition (l.start_ref + 1 - l.size)) ≤
            (getPositionsForSeeds cfg P (some l) none l.qEnd n.start).1.xXAxis.iStart)) ∧
    (n.bOnForwStrand = true →
      (P.startOfSequenceWithId (P.uiSequenceIdForPosition n.start_ref) : Int) ≤
        (n.start_ref : Int) →
      (getPositionsForSeeds cfg P none (some n) l.qEnd n.start).1.xXAxis.iSize ≤
          cfg.iMaxSizeReseed / 2 ∧
        ((getPositionsForSeeds cfg P none (some n) l.qEnd n.start).1.xXAxis.iSize ≠ 0 →
          P.startOfSequenceWithId (P.uiSequenceIdForPosition n.start_ref) ≤
            (getPositionsForSeeds cfg P none (some n) l.qEnd n.start).1.xXAxis.iStart)) ∧
    (n.bOnForwStrand = false →
      (n.start_ref : Int) + 1 ≤
        (P.endOfSequenceWithId (P.uiSequenceIdForPosition (n.start_ref + 1)) : Int) →
      (getPositionsForSeeds cfg P none (some n) l.qEnd n.start).1.xXAxis.iSize ≤
          cfg.iMaxSizeReseed / 2 ∧
        (getPositionsForSeeds cfg P none (some n) l.qEnd n.start).1.xXAxis.endPos ≤
          P.endOfSequenceWithId (P.uiSequenceIdForPosition (n.start_ref + 1))) := by
  have hov : ¬ (overlapCheck (some l) (some n) = true) := by
    simpa [overlapCheck] using h1
  have hle : ¬ (lastEndCheck uiQEnd (some l) = true) := by
    simpa [lastEndCheck] using h2
  have hns : ¬ (nextStartCheck uiQStart (some n) = true) := by
    simpa [nextStartCheck] using h3
  have hqle := iQueryDistanceOf_le cfg (n.start - l.qEnd)
  refine ⟨?_, ?_, ?_, ?_, ?_⟩
  · have e := svGo_some_some cfg P 1 l n uiQStart uiQEnd
    rw [if_neg hov, if_neg hle, if_neg hns, if_neg h4, if_pos h5] at e
    have e2 : getPositionsForSeeds cfg P (some l) (some n) uiQStart uiQEnd =
        ((getPositionsForSeedsGo cfg P 1 (some l) none l.qEnd n.start).1,
         (getPositionsForSeedsGo cfg P 1 none (some n) l.qEnd n.start).1) := e
    rw [e2]
    have f1 : getPositionsForSeedsGo cfg P 1 (some l) none l.qEnd n.start =
        getPositionsForSeeds cfg P (some l) none l.qEnd n.start :=
      getPositionsForSeedsGo_dummy_fuel cfg P 0 1 (some l) none l.qEnd n.start (Or.inr rfl)
    have f2 : getPositionsForSeedsGo cfg P 1 none (some n) l.qEnd n.start =
        getPositionsForSeeds cfg P none (some n) l.qEnd n.start :=
      getPositionsForSeedsGo_dummy_fuel cfg P 0 1 none (some n) l.qEnd n.start (Or.inl rfl)
    rw [f1, f2]
  · intro hl hc
    have e : getPositionsForSeeds cfg P (some l) none l.qEnd n.start =
        (if lastEndCheck n.start (some l) then (emptyRect, emptyRect)
         else if computeLastRef cfg P (some l) none l.qEnd =
             computeNextRef cfg P (some l) none n.start then (emptyRect, emptyRect)
         else positionsForSeedsTail (some l) none l.qEnd n.start
           (computeLastRef cfg P (some l) none l.qEnd)
           (computeNextRef cfg P (some l) none n.start)) :=
      svGo_some_none cfg P 1 l l.qEnd n.start
    rw [e]
    by_cases hb : lastEndCheck n.start (some l) = true
    · rw [if_pos hb]; exact ⟨Nat.zero_le _, Nat.zero_le _⟩
    · rw [if_neg hb]
      by_cases heq : computeLastRef cfg P (some l) none l.qEnd =
          computeNextRef cfg P (some l) none n.start
      · rw [if_pos heq]; exact ⟨Nat.zero_le _, Nat.zero_le _⟩
      · rw [if_neg heq]
        rw [computeLastRef_some_fwd cfg P l none l.qEnd hl,
          computeNextRef_none_fwd cfg P l n.start hl]
        simp only [positionsForSeedsTail, GeomInterval.endPos]
        constructor <;> omega
  · intro hl hc
    have e : getPositionsForSeeds cfg P (some l) none l.qEnd n.start =
        (if lastEndCheck n.start (some l) then (emptyRect, emptyRect)
         else if computeLastRef cfg P (some l) none l.qEnd =
             computeNextRef cfg P (some l) none n.start then (emptyRect, emptyRect)
         else positionsForSeedsTail (some l) none l.qEnd n.start
           (computeLastRef cfg P (some l) none l.qEnd)
           (computeNextRef cfg P (some l) none n.start)) :=
      svGo_some_none cfg P 1 l l.qEnd n.start
    rw [e]
    by_cases hb : lastEndCheck n.start (some l) = true
    · rw [if_pos hb]; exact ⟨Nat.zero_le _, fun h => absurd rfl h⟩
    · rw [if_neg hb]
      by_cases heq : computeLastRef cfg P (some l) none l.qEnd =
          computeNextRef cfg P (some l) none n.start
      · rw [if_pos heq]; exact ⟨Nat.zero_le _, fun h => absurd rfl h⟩
      · rw [if_neg heq]
        rw [computeLastRef_some_rev cfg P l none l.qEnd hl,
          computeNextRef_none_rev cfg P l n.start hl]
        simp only [positionsForSeedsTail]
        constructor
        · omega
        · intro hsz
          omega
  · intro hn hc
    have e : getPositionsForSeeds cfg P none (some n) l.qEnd n.start =
        (if nextStartCheck l.qEnd (some n) then (emptyRect, emptyRect)
         else if computeLastRef cfg P none (some n) l.qEnd =
             computeNextRef cfg P none (some n) n.start then (emptyRect, emptyRect)
         else positionsForSeedsTail none (some n) l.qEnd n.start
           (computeLastRef cfg P none (some n) l.qEnd)
           (computeNextRef cfg P none (some n) n.start)) :=
      svGo_none_some cfg P 1 n l.qEnd n.start
    rw [e]
    by_cases hb : nextStartCheck l.qEnd (some n) = true
    · rw [if_pos hb]; exact ⟨Nat.zero_le _, fun h => absurd rfl h⟩
    · rw [if_neg hb]
      by_cases heq : computeLastRef cfg P none (some n) l.qEnd =
          computeNextRef cfg P none (some n) n.start
      · rw [if_pos heq]; exact ⟨Nat.zero_le _, fun h => absurd rfl h⟩
      · rw [if_neg heq]
        rw [computeLastRef_none_fwd cfg P n l.qEnd hn,
          computeNextRef_some_fwd cfg P none n n.start hn]
        simp only [positionsForSeedsTail]
        constructor
        · omega
        · intro hsz
          omega
  · intro hn hc
    have e : getPositionsForSeeds cfg P none (some n) l.qEnd n.start =
        (if nextStartCheck l.qEnd (some n) then (emptyRect, emptyRect)
         else if computeLastRef cfg P none (some n) l.qEnd =
             computeNextRef cfg P none (some n) n.start then (emptyRect, emptyRect)
         else positionsForSeedsTail none (some n) l.qEnd n.start
           (computeLastRef cfg P none (some n) l.qEnd)
           (computeNextRef cfg P none (some n) n.start)) :=
      svGo_none_some cfg P 1 n l.qEnd n.start
    rw [e]
    by_cases hb : nextStartCheck l.qEnd (some n) = true
    · rw [if_pos hb]; exact ⟨Nat.zero_le _, Nat.zero_le _⟩
    · rw [if_neg hb]
      by_cases heq : computeLastRef cfg P none (some n) l.qEnd =
          computeNextRef cfg P none (some n) n.start
      · rw [if_pos heq]; exact ⟨Nat.zero_le _, Nat.zero_le _⟩
      · rw [if_neg heq]
        rw [computeLastRef_none_rev cfg P n l.qEnd hn,
          computeNextRef_some_rev cfg P none n n.start hn]
        simp only [positionsForSeedsTail, GeomInterval.endPos]
        constructor <;> omega

/-- C4 witness: two forward seeds `90` reference positions apart with
`iMaxSizeReseed = 10` trip the split condition, and the result is the
pair of dummy-sided first rectangles. -/
theorem C4_rect_split_amended_witness :
    getPositionsForSeeds ⟨10, true, 10, 100, 10000⟩ packL1000
        (some ⟨10, 10, 100, true⟩) (some ⟨40, 10, 200, true⟩) 0 500 =
      ((getPositionsForSeeds ⟨10, true, 10, 100, 10000⟩ packL1000
          (some ⟨10, 10, 100, true⟩) none
          (Seed.qEnd ⟨10, 10, 100, true⟩) (Seed.start ⟨40, 10, 200, true⟩)).1,
       (getPositionsForSeeds ⟨10, true, 10, 100, 10000⟩ packL1000
          none (some ⟨40, 10, 200, true⟩)
          (Seed.qEnd ⟨10, 10, 100, true⟩) (Seed.start ⟨40, 10, 200, true⟩)).1) :=
  (C4_rect_split_amended ⟨10, true, 10, 100, 10000⟩ packL1000
    ⟨10, 10, 100, true⟩ ⟨40, 10, 200, true⟩ 0 500
    (by decide) (by decide) (by decide) (by decide) (by decide)).1

/-- A concrete pack with `forward_length = 2000` (one contig, all-`A`
forward strand), for the S4 scenario. -/
def packL2000 : Pack :=
  { xVectorOfSequenceDescriptors := [⟨"chr1", "none", 0, 2000, 0, 0⟩]
    xVectorOfHoleDescriptors := []
    xPackedNucSeqs := List.replicate 500 0
    seed := 0
    uiUnpackedSizeForwardStrand := 2000 }

/-- C5: with `bDoDummyJumps` and a dummy in the pair, a left dummy jump
is emitted iff `next` is real with `uiMinDistDummy < next.start()`, a
right dummy iff `last` is real with `last.end() + uiMinDistDummy <=
query length`; every left dummy produced is the constructor call on
`next` (so `q_from = 0`, target `next.r_start`, `max_dist =
uiMaxDistDummy`); and in the S4 scenario (read length 500, single seed
`q=50,r=1000,fwd`, `uiMinDistDummy = 10`) exactly one left dummy jump
with target `1000` and `q_from = 0` appears. -/
theorem C5_dummy_jump_emission (cfg : SvCfg) (rLast rNext : Option Seed)
    (uiQLen iReadId : Nat)
    (hdo : cfg.bDoDummyJumps = true)
    (hdum : rLast = none ∨ rNext = none) :
    ((∃ j ∈ emitJumps cfg rLast rNext uiQLen iReadId, isLeftDummy j = true) ↔
      ∃ n, rNext = some n ∧ cfg.uiMinDistDummy < n.start) ∧
    ((∃ j ∈ emitJumps cfg rLast rNext uiQLen iReadId, isRightDummy j = true) ↔
      ∃ l, rLast = some l ∧ l.qEnd + cfg.uiMinDistDummy ≤ uiQLen) ∧
    (∀ j ∈ emitJumps cfg rLast rNext uiQLen iReadId, isLeftDummy j = true →
      ∃ n, rNext = some n ∧
        j = mkDummyJump n uiQLen false iReadId cfg.uiMaxDistDummy ∧
        j.q_from = 0 ∧ j.to_pos = n.start_ref ∧ j.max_dist = cfg.uiMaxDistDummy) ∧
    ((svExecuteChainJumps ⟨1000, true, 10, 100, 10000⟩ packL2000 (fun _ => []) id
        500 0 2 [⟨50, 20, 1000, true⟩]).filter isLeftDummy =
      [mkDummyJump ⟨50, 20, 1000, true⟩ 500 false 0 100]) ∧
    (mkDummyJump ⟨50, 20, 1000, true⟩ 500 false 0 100).to_pos = 1000 ∧
    (mkDummyJump ⟨50, 20, 1000, true⟩ 500 false 0 100).q_from = 0 := by
  refine ⟨?_, ?_, ?_, by decide, rfl, rfl⟩
  · rcases rLast with _ | l <;> rcases rNext with _ | n
    · simp [emitJumps, hdo, isLeftDummy]
    · by_cases hlt : cfg.uiMinDistDummy < n.start <;>
        simp [emitJumps, hdo, hlt, isLeftDummy, mkDummyJump]
    · by_cases hql : l.qEnd + cfg.uiMinDistDummy ≤ uiQLen <;>
        simp [emitJumps, hdo, hql, isLeftDummy, mkDummyJump]
    · rcases hdum with h | h <;> exact absurd h (by simp)
  · rcases rLast with _ | l <;> rcases rNext with _ | n
    · simp [emitJumps, hdo, isRightDummy]
    · by_cases hlt : cfg.uiMinDistDummy < n.start <;>
        simp [emitJumps, hdo, hlt, isRightDummy, mkDummyJump]
    · by_cases hql : l.qEnd + cfg.uiMinDistDummy ≤ uiQLen <;>
        simp [emitJumps, hdo, hql, isRightDummy, mkDummyJump]
    · rcases hdum with h | h <;> exact absurd h (by simp)
  · rcases rLast with _ | l <;> rcases rNext with _ | n
    · simp [emitJumps, hdo, isLeftDummy]
    · by_cases hlt : cfg.uiMinDistDummy < n.start <;>
        simp [emitJumps, hdo, hlt, isLeftDummy, mkDummyJump]
    · by_cases hql : l.qEnd + cfg.uiMinDistDummy ≤ uiQLen <;>
        simp [emitJumps, hdo, hql, isLeftDummy, mkDummyJump]
    · rcases hdum with h | h <;> exact absurd h (by simp)

/-- C5 witness: with a dummy `last` and a real `next` starting at query
position `50 > uiMinDistDummy = 10`, a left dummy jump is emitted. -/
theorem C5_dummy_jump_emission_witness :
    ∃ j ∈ emitJumps ⟨1000, true, 10, 100, 10000⟩ none
        (some ⟨50, 20, 1000, true⟩) 500 0, isLeftDummy j = true :=
  (C5_dummy_jump_emission ⟨1000, true, 10, 100, 10000⟩ none
    (some ⟨50, 20, 1000, true⟩) 500 0 rfl (Or.inl rfl)).1.mpr
    ⟨⟨50, 20, 1000, true⟩, rfl, by decide⟩

/-- C6: counterexample.  For `last = (q=0,size=10,r=100,fwd)` and
`next = (q=20,size=5,r=110,fwd)` the constructed rectangle pair is
empty (`iLastRef = 110 = iNextRef`), yet the recursion still emits
jumps for the pair: reseeding finds nothing, and the emission of lines
304-310 produces two `validJump`-guarded jumps (query distance `10 ≥ 0`,
reference distance `10` within bounds). -/
theorem C6_empty_rect_counterexample :
    getPositionsForSeeds ⟨1000, true, 10, 100, 10000⟩ packL1000
        (some ⟨0, 10, 100, true⟩) (some ⟨20, 5, 110, true⟩) 0 500 =
      (emptyRect, emptyRect) ∧
    makeJumpsByReseedingRecursive ⟨1000, true, 10, 100, 10000⟩ packL1000
        (fun _ => []) id 500 0 1
        (some ⟨0, 10, 100, true⟩) (some ⟨20, 5, 110, true⟩) ≠ [] := by
  exact ⟨by decide, by decide⟩

/-- C6 (amended): a rectangle with a zero reference width or zero query
height contributes no seeds to the reseeding step; and when the pair of
constructed rectangles is empty, the recursion stops and the pair is
handed to the jump emission of lines 296-311 (which may still emit
jumps — the claim's "no jumps" does not hold).  `pfilter` only needs to
map no seeds to no seeds. -/
theorem C6_empty_rect_amended (cfg : SvCfg) (P : Pack)
    (findSeeds : Rect → List Seed) (pfilter : List Seed → List Seed)
    (uiQLen iReadId fuel : Nat) (rLast rNext : Option Seed) (r : Rect)
    (hr : r.xXAxis.iSize = 0 ∨ r.xYAxis.iSize = 0)
    (hfil : pfilter [] = [])
    (hrect : getPositionsForSeeds cfg P rLast rNext 0 uiQLen =
      (emptyRect, emptyRect)) :
    computeSeedsRect findSeeds r = [] ∧
    makeJumpsByReseedingRecursive cfg P findSeeds pfilter uiQLen iReadId
        (fuel + 1) rLast rNext =
      emitJumps cfg rLast rNext uiQLen iReadId := by
  constructor
  · unfold computeSeedsRect
    rw [if_pos hr]
  · simp only [makeJumpsByReseedingRecursive, hrect]
    have hcp : computeSeedsPair findSeeds (emptyRect, emptyRect) = [] := rfl
    rw [hcp, hfil]
    simp [sortSeedsByStart]

/-- C6 witness: the empty rectangle yields no seeds, and the seed pair
with an empty rectangle pair reduces to the plain jump emission. -/
theorem C6_empty_rect_amended_witness :
    computeSeedsRect (fun _ => ([] : List Seed)) emptyRect = [] ∧
    makeJumpsByReseedingRecursive ⟨1000, true, 10, 100, 10000⟩ packL1000
        (fun _ => []) id 500 0 1
        (some ⟨0, 10, 100, true⟩) (some ⟨20, 5, 110, true⟩) =
      emitJumps ⟨1000, true, 10, 100, 10000⟩ (some ⟨0, 10, 100, true⟩)
        (some ⟨20, 5, 110, true⟩) 500 0 :=
  C6_empty_rect_amended ⟨1000, true, 10, 100, 10000⟩ packL1000 (fun _ => []) id
    500 0 0 (some ⟨0, 10, 100, true⟩) (some ⟨20, 5, 110, true⟩) emptyRect
    (Or.inl rfl) rfl (by decide)
